import Mathlib

/-!
Verification of the conversation-dynamics feature engine of `convodynamics`
(`src/convodynamics/transformers/conversation_dynamics/`), as a shallow
embedding in Lean 4.

The embedding models one conversation processed through the diarized-segments
branch of `ConversationDynamicsTransformer.transform`:

* a diarization segment row (pandas DataFrame row with columns
  `start`, `end`, `speaker`, `duration`) becomes `Row`, with times in `Rat`;
* a DataFrame becomes `Frame`: its rows plus the derived working columns that
  metrics write in place (`pause`, `backchannel`, ...), held as an association
  list of named columns;
* each metric class of `metrics.py` becomes an `extract` function from the
  frame (and the keyword arguments actually passed by `transform`) to the
  result mapping together with the frame as left behind by the call;
* pandas NaN produced by `shift(-1)` is `Option.none`; `Series.mean` skips
  missing values and `dropna` removes speakers whose mean is missing;
* the result dictionary key produced by `Index.map` on a speaker absent from
  the renaming mapping would be a float NaN in pandas, so result keys are
  `RKey` (a proper string key or the NaN key), not bare strings;
* a raised Python exception becomes `Except.error` with the message text;
  once a metric raises, `transform` has no handler, which the sequential
  `runMetrics` fold reflects.
-/

/-- One diarization segment: a row of the segments DataFrame built by
`SpeechDiarizationTransformer._diarize_conversation` with columns
`start`, `end`, `speaker`, `duration` (the source sets `duration = end - start`
at construction, but the metrics read the stored column, so it is a field). -/
structure Row where
  start : ℚ
  end_ : ℚ
  speaker : String
  duration : ℚ
deriving DecidableEq

/-- A cell of a derived working column: numeric, missing (NaN), or boolean. -/
inductive CellV where
  | q (x : ℚ)
  | na
  | bl (b : Bool)
deriving DecidableEq

/-- A pandas DataFrame of segments: the base rows plus the derived columns
(`pause`, `backchannel`, `response_time`, ...) that metrics assign in place. -/
structure Frame where
  rows : List Row
  extra : List (String × List CellV)
deriving DecidableEq

/-- A key of a metric-result dictionary: a string key, or the float-NaN key
that `Index.map` produces for a speaker missing from the renaming mapping. -/
inductive RKey where
  | str (s : String)
  | nan
deriving DecidableEq

/-- Association-list lookup (first match), used for result dictionaries and
for the derived-column store. -/
def alookup {α β : Type} [DecidableEq α] : List (α × β) → α → Option β
  | [], _ => none
  | p :: rest, k => if p.1 = k then some p.2 else alookup rest k

/-- Python-dict style update: replace the value in place when the key exists,
append otherwise. -/
def aupdate {α β : Type} [DecidableEq α] (d : List (α × β)) (k : α) (v : β) :
    List (α × β) :=
  if d.any (fun p => p.1 = k) then
    d.map (fun p => if p.1 = k then (k, v) else p)
  else d ++ [(k, v)]

/-- Assign a derived column on a frame (`conversation[name] = col`). -/
def withCol (f : Frame) (name : String) (col : List CellV) : Frame :=
  { f with extra := aupdate f.extra name col }

def cellOfOpt : Option ℚ → CellV
  | some x => CellV.q x
  | none => CellV.na

/-- `pandas.Series.unique` on the speaker column: distinct values in order of
first appearance. -/
def dedupFirst : List String → List String
  | [] => []
  | a :: l => a :: (dedupFirst l).filter (fun x => decide (x ≠ a))

/-- `conversation['speaker'].unique()`. -/
def uniqueSpeakers (rows : List Row) : List String :=
  dedupFirst (rows.map (fun r => r.speaker))

/-- Lexicographic comparison of character lists by code point, matching the
Python `str` ordering that `groupby(sort=True)` sorts group labels with. -/
def charListLe : List Char → List Char → Bool
  | [], _ => true
  | _ :: _, [] => false
  | a :: as, b :: bs =>
    if a.val < b.val then true
    else if b.val < a.val then false
    else charListLe as bs

def strLeB (a b : String) : Bool := charListLe a.data b.data

/-- Insertion step of a string sort (ascending, ties keep order). -/
def insertSorted (s : String) : List String → List String
  | [] => [s]
  | t :: rest => if strLeB s t then s :: t :: rest else t :: insertSorted s rest

/-- Sorted group labels, as `groupby` orders its groups (sort=True default). -/
def sortStrings : List String → List String
  | [] => []
  | s :: rest => insertSorted s (sortStrings rest)

/-- `conversation.groupby('speaker')['duration'].sum()` for one speaker. -/
def sumDurOf (rows : List Row) (s : String) : ℚ :=
  ((rows.filter (fun r => decide (r.speaker = s))).map (fun r => r.duration)).sum

/-- `Series.mean` with pandas skipna semantics: `none` on an empty group. -/
def meanOpt (l : List ℚ) : Option ℚ :=
  if l.isEmpty then none else some (l.sum / (l.length : ℚ))

/-- `conversation['start'].shift(-1) - conversation['end']`: row `i` gets
`start (i+1) - end i`, the trailing row gets NaN. -/
def shiftGaps : List Row → List (Option ℚ)
  | [] => []
  | [_] => [none]
  | r1 :: r2 :: rest => some (r2.start - r1.end_) :: shiftGaps (r2 :: rest)

/-- Values of a derived column restricted to one speaker group, with missing
entries skipped (pandas groupby mean skipna). -/
def groupVals (rows : List Row) (col : List (Option ℚ)) (s : String) : List ℚ :=
  (rows.zip col).filterMap (fun rc => if rc.1.speaker = s then rc.2 else none)

/-- A groupby aggregation as a Series: one entry per group label in sorted
label order, labels whose aggregate is missing dropped (`dropna`). -/
def groupbyApply (rows : List Row) (g : String → Option ℚ) : List (String × ℚ) :=
  (sortStrings (uniqueSpeakers rows)).filterMap
    (fun s => (g s).map (fun v => (s, v)))

/-- ASCII whitespace, the characters `str.strip()` removes from the ASCII
identifiers this program handles (space, tab, newline, carriage return,
vertical tab, form feed). -/
def isSpaceChar (c : Char) : Bool :=
  c.val = 32 || c.val = 9 || c.val = 10 || c.val = 13 || c.val = 11 || c.val = 12

/-- Python `str.lower()` (the original is Unicode-wide; the speaker ids and
metric names in this program are ASCII, where lowering is `Char.toLower`
characterwise). -/
def pyLower (s : String) : String := String.mk (s.data.map Char.toLower)

/-- Python `str.strip()`: drop leading and trailing whitespace. -/
def pyStrip (s : String) : String :=
  String.mk ((((s.data.dropWhile isSpaceChar).reverse).dropWhile isSpaceChar).reverse)

/-- Speaker-id normalization used by the result formatter:
`s.lower().strip()`. -/
def normKey (s : String) : String := pyStrip (pyLower s)

/-- The key a speaker-scoped score is renamed to by `Feature._format_results`:
`mapping = \x7bs: f"\x7bs.lower().strip()\x7d_\x7bmetric\x7d" for s in speakers\x7d` applied with
`scores.index.map(mapping)`; a speaker absent from `speakers` maps to NaN. -/
def renameKey (speakers : List String) (metricKey : String) (s : String) : RKey :=
  if s ∈ speakers then RKey.str (normKey s ++ "_" ++ metricKey) else RKey.nan

/-- `Feature._format_results`: rename every speaker-scoped Series by the
speaker-key convention, merge all of them and then the conversation-scoped
values into one flat dictionary (`results.update`). -/
def format_results (speakerMetrics : List (String × List (String × ℚ)))
    (conversationMetrics : List (String × ℚ)) (speakers : List String) :
    List (RKey × ℚ) :=
  let afterSpeaker := speakerMetrics.foldl
    (fun res mp => mp.2.foldl
      (fun r sv => aupdate r (renameKey speakers mp.1 sv.1) sv.2) res) []
  conversationMetrics.foldl
    (fun r kv => aupdate r (RKey.str kv.1) kv.2) afterSpeaker

/-- Insertion step of the row sort by `start` (ties keep current order). -/
def insertRow (r : Row) : List Row → List Row
  | [] => [r]
  | t :: rest => if decide (r.start ≤ t.start) then r :: t :: rest
                 else t :: insertRow r rest

/-- `conversation.sort_values(by="start")` (a fresh sorted copy). -/
def sortRows : List Row → List Row
  | [] => []
  | r :: rest => insertRow r (sortRows rest)

/-- `SpeakingTime.extract`: per speaker `sum(duration) * 100 / total_duration`;
reads the frame only. -/
def SpeakingTime.extract (f : Frame) (T : ℚ) : List (RKey × ℚ) × Frame :=
  (format_results
    [("speaking_time",
      groupbyApply f.rows (fun s => some (sumDurOf f.rows s * 100 / T)))]
    [] (uniqueSpeakers f.rows),
   f)

/-- `Pauses.extract`: assigns the `pause` column
(`start.shift(-1) - end`) IN PLACE on the shared frame, then per speaker of
the current row `mean(pause).dropna() * 100 / total_duration`. -/
def Pauses.extract (f : Frame) (T : ℚ) : List (RKey × ℚ) × Frame :=
  (format_results
    [("avg_pause_pct",
      groupbyApply f.rows (fun s =>
        (meanOpt (groupVals f.rows (shiftGaps f.rows) s)).map
          (fun m => m * 100 / T)))]
    [] (uniqueSpeakers f.rows),
   withCol f "pause" ((shiftGaps f.rows).map cellOfOpt))

/-- `ResponseTime.extract`: rebinds `conversation` to a sorted copy
(`sort_values(by="start").reset_index(drop=True)`), assigns `response_time`
on that copy, and reports the per-speaker mean of `start.shift(-1) - end`
grouped by the CURRENT row of the sorted copy, in raw time units; the input
frame is left untouched. -/
def ResponseTime.extract (f : Frame) : List (RKey × ℚ) × Frame :=
  (format_results
    [("avg_response_time",
      groupbyApply (sortRows f.rows) (fun s =>
        meanOpt (groupVals (sortRows f.rows) (shiftGaps (sortRows f.rows)) s)))]
    [] (uniqueSpeakers (sortRows f.rows)),
   f)

/-- `Backchannels.is_backchannel`: `any` over ALL rows of the segments frame
(the row under test included — the source has no self-exclusion) of
`(segments.start <= current.start) & (segments.end >= current.end)
 & (current.end - current.start <= 1.0)`. -/
def Backchannels.is_backchannel (cur : Row) (segments : List Row) : Bool :=
  segments.any (fun other =>
    decide (other.start ≤ cur.start) && decide (cur.end_ ≤ other.end_) &&
    decide (cur.end_ - cur.start ≤ 1))

/-- The in-place assignment
`conversation['backchannel'] = conversation.apply(self.is_backchannel, ...)`. -/
def Backchannels.assign (f : Frame) : Frame :=
  withCol f "backchannel"
    (f.rows.map (fun r => CellV.bl (Backchannels.is_backchannel r f.rows)))

/-- `groupby("speaker").size()` for one speaker, as float. -/
def turnsOf (rows : List Row) (s : String) : ℚ :=
  ((rows.filter (fun r => decide (r.speaker = s))).length : ℚ)

/-- `groupby("speaker")["backchannel"].sum().astype(float)` for one speaker. -/
def backchannelCount (rows : List Row) (s : String) : ℚ :=
  ((rows.filter (fun r =>
    decide (r.speaker = s) && Backchannels.is_backchannel r rows)).length : ℚ)

/-- `Backchannels.extract`: assigns the `backchannel` column in place, then
rescales the counts of the first two speakers (in first-appearance order) by
the OTHER speaker's turn count; `speakers[1]` raises IndexError when fewer
than two distinct speakers are present. -/
def Backchannels.extract (f : Frame) :
    Except String (List (RKey × ℚ) × Frame) :=
  match uniqueSpeakers f.rows with
  | sp0 :: sp1 :: _ =>
    Except.ok
      (format_results
        [("backchannels",
          groupbyApply f.rows (fun s =>
            some (if s = sp0 then
                    backchannelCount f.rows sp0 * 100 / turnsOf f.rows sp1
                  else if s = sp1 then
                    backchannelCount f.rows sp1 * 100 / turnsOf f.rows sp0
                  else backchannelCount f.rows s)))]
        [] (uniqueSpeakers f.rows),
       Backchannels.assign f)
  | _ => Except.error "IndexError: index 1 is out of bounds for axis 0"

/-- A registered metric instance as `transform` drives it: a name
(`metric.get_name`) and the effect of
`metric(conversation=segments, total_duration=total_duration)` (segments
branch: `total_duration` is `some T`) or `metric(conversation=transcripts)`
(transcript branch: `none`). The call returns the result dictionary and the
segments frame as the call leaves it (metrics that assign columns mutate the
shared frame), or the raised exception. -/
structure MetricImpl where
  name : String
  run : Frame → Option ℚ → Except String (List (RKey × ℚ) × Frame)

/-- `SpeakingTime` as called by `transform`: `extract(conversation,
total_duration)` needs `total_duration`; in the transcript branch the call
omits it, which raises TypeError at argument binding. -/
def speakingTimeImpl : MetricImpl :=
  { name := "speaking_time",
    run := fun f T? =>
      match T? with
      | some T => Except.ok (SpeakingTime.extract f T)
      | none => Except.error
          "TypeError: extract() missing 1 required positional argument: total_duration" }

/-- `Pauses` as called by `transform` (needs `total_duration`). -/
def pausesImpl : MetricImpl :=
  { name := "pauses",
    run := fun f T? =>
      match T? with
      | some T => Except.ok (Pauses.extract f T)
      | none => Except.error
          "TypeError: extract() missing 1 required positional argument: total_duration" }

/-- `Backchannels` as called by `transform` (`**kwargs` absorbs
`total_duration`). -/
def backchannelsImpl : MetricImpl :=
  { name := "backchannels", run := fun f _ => Backchannels.extract f }

/-- `ResponseTime` as called by `transform` (`**kwargs` absorbs
`total_duration`). -/
def responseTimeImpl : MetricImpl :=
  { name := "response_time", run := fun f _ => Except.ok (ResponseTime.extract f) }

/-- `SpeakerRate` as called by `transform`: its signature is
`extract(self, conversation, text_field)` with no `**kwargs`, and `transform`
never passes `text_field`; in the segments branch CPython rejects the call
with an unexpected-keyword TypeError for `total_duration`, in the transcript
branch with a missing-argument TypeError. The method body (the `speechrate`
column) is unreachable through this orchestrator and is not modelled. -/
def speakerRateImpl : MetricImpl :=
  { name := "speaker_rate",
    run := fun _ T? =>
      match T? with
      | some _ => Except.error
          "TypeError: extract() got an unexpected keyword argument total_duration"
      | none => Except.error
          "TypeError: extract() missing 1 required positional argument: text_field" }

/-- The `for metric in self.metrics:` loop of `transform` (lines 85-94): run
each metric on the SAME shared frame (threading the in-place column
assignments), storing each result under `metric.get_name` in the `metrics`
dict; a raised exception has no handler and aborts the whole conversation. -/
def runMetrics : List MetricImpl → Frame → Option ℚ →
    List (String × List (RKey × ℚ)) →
    Except String (List (String × List (RKey × ℚ)) × Frame)
  | [], f, _, acc => Except.ok (acc, f)
  | m :: rest, f, T?, acc =>
    match m.run f T? with
    | Except.error e => Except.error e
    | Except.ok (res, f2) => runMetrics rest f2 T? (aupdate acc m.name res)

/-- Processing of one conversation with diarization segments attached:
the metric loop of `transform`, whose resulting `metrics` dict is what
`add_meta("conversation_dynamics_features", metrics)` attaches. -/
def transformSegments (ms : List MetricImpl) (f : Frame) (T : ℚ) :
    Except String (List (String × List (RKey × ℚ)) × Frame) :=
  runMetrics ms f (some T) []

/-- `remove_shortest_speaker`: drop every row of the speaker with the least
total `duration`; `groupby(...).idxmin()` picks the first minimizer in sorted
group order. On an empty frame pandas idxmin would raise, which `transform`
never reaches (the call is guarded by `nunique() > 2`); the embedding returns
the frame unchanged in that vacuous case. -/
def argminQ (g : String → ℚ) : List String → Option String
  | [] => none
  | s :: rest =>
    match argminQ g rest with
    | none => some s
    | some t => if decide (g s ≤ g t) then some s else some t

def idxminTotalDuration (segments : List Row) : Option String :=
  argminQ (fun s => sumDurOf segments s) (sortStrings (uniqueSpeakers segments))

def remove_shortest_speaker (segments : List Row) : List Row :=
  match idxminTotalDuration segments with
  | some sp => segments.filter (fun r => decide (r.speaker ≠ sp))
  | none => segments

/-- The segment normalization `transform` performs before any metric runs
(lines 77-83): remove the shortest speaker once when
`segments['speaker'].nunique() > 2`, otherwise pass the segments through
untouched. No sorting and no speaker-count check happens here. -/
def normalizeSegments (segments : List Row) : List Row :=
  if 2 < (uniqueSpeakers segments).length then remove_shortest_speaker segments
  else segments

/-- The six metric classes, as identifiers (values of `_METRICS_REGISTRY`). -/
inductive MetricId where
  | speakingTime
  | turnLength
  | pauses
  | speakerRate
  | backchannels
  | responseTime
deriving DecidableEq

/-- `_METRICS_REGISTRY` of `conversation_dynamics.py`, in source order. -/
def METRICS_REGISTRY : List (String × MetricId) :=
  [("speaking_time", MetricId.speakingTime),
   ("turn_length", MetricId.turnLength),
   ("pauses", MetricId.pauses),
   ("speaker_rate", MetricId.speakerRate),
   ("backchannels", MetricId.backchannels),
   ("response_time", MetricId.responseTime)]

/-- The name normalization of `register_metrics`:
`metric_name.lower().strip()`. -/
def normalizeName (s : String) : String := pyStrip (pyLower s)

/-- A single-quote character, for building the Python error-message text. -/
def squote : String := String.singleton (Char.ofNat 39)

/-- `repr` of the Python list `list(_METRICS_REGISTRY.keys())`. -/
def pyListRepr (xs : List String) : String :=
  "[" ++ String.intercalate ", " (xs.map (fun s => squote ++ s ++ squote)) ++ "]"

/-- The `ValueError` message of `register_metrics` for an unrecognized name. -/
def unknownMetricMsg (name : String) : String :=
  "Metric " ++ squote ++ name ++ squote ++ " not recognized. Available metrics: " ++
    pyListRepr (METRICS_REGISTRY.map Prod.fst)

/-- The `for metric_name in metrics:` loop of `register_metrics`: appends the
resolved metric for every recognized name; the first unrecognized name raises
`ValueError` with the metrics appended so far still assigned to
`self.metrics`. -/
def registerLoop (acc : List MetricId) : List String → List MetricId × Option String
  | [] => (acc, none)
  | n :: rest =>
    match alookup METRICS_REGISTRY (normalizeName n) with
    | some m => registerLoop (acc ++ [m]) rest
    | none => (acc, some (unknownMetricMsg (normalizeName n)))

/-- `register_metrics`: takes the transformer's previous `self.metrics` (the
state before the call, discarded by line 41 `self.metrics = []`) and the
supplied names; returns the resulting `self.metrics` and the raised
`ValueError` message, if any. -/
def register_metrics (_prev : List MetricId) (names : List String) :
    List MetricId × Option String :=
  registerLoop [] names

/-- The backchannel predicate as the spec states it: row `i` is nested inside
at least one OTHER row (self-comparison excluded) and lasts at most one
second. Written from the spec sentence, for comparison with the source's
`Backchannels.is_backchannel`. -/
def isBackchannelSpec (i : ℕ) (rows : List Row) : Bool :=
  match rows[i]? with
  | none => false
  | some cur =>
    (List.range rows.length).any (fun j =>
      decide (j ≠ i) &&
      (match rows[j]? with
       | some other => decide (other.start ≤ cur.start) &&
                       decide (cur.end_ ≤ other.end_)
       | none => false)) &&
    decide (cur.end_ - cur.start ≤ 1)

/-- The gaps `next.start - current.end` over consecutive pairs, restricted to
pairs whose CURRENT row belongs to speaker `s` (the trailing row contributes
nothing). Written from the spec sentences describing Pauses and ResponseTime,
for comparison with the `shift(-1)`/groupby pipeline of the source. -/
def gapsOf : List Row → String → List ℚ
  | r1 :: r2 :: rest, s =>
    (if r1.speaker = s then [r2.start - r1.end_] else []) ++ gapsOf (r2 :: rest) s
  | _, _ => []

/-- Chronological sortedness of a segments list (`start` ascending). -/
def sortedByStartB : List Row → Bool
  | r1 :: r2 :: rest => decide (r1.start ≤ r2.start) && sortedByStartB (r2 :: rest)
  | _ => true

/-- The rows form a chain of pairwise non-overlapping intervals inside
`[lo, hi]`: each row starts no earlier than the previous row ended (the first
no earlier than `lo`) and the last ends no later than `hi`. -/
def chainOKB (lo : ℚ) : List Row → ℚ → Bool
  | [], hi => decide (lo ≤ hi)
  | r :: rest, hi => decide (lo ≤ r.start) && decide (r.start ≤ r.end_) &&
                     chainOKB r.end_ rest hi

/-- The rows tile `[lo, hi]` exactly: no gap at the front, between rows, or at
the back. -/
def coversB (lo : ℚ) : List Row → ℚ → Bool
  | [], hi => decide (lo = hi)
  | r :: rest, hi => decide (r.start = lo) && coversB r.end_ rest hi

/-- Top-level keys of the record `transform` attaches as
`conversation_dynamics_features`. -/
def topKeys (e : Except String (List (String × List (RKey × ℚ)) × Frame)) :
    Option (List String) :=
  e.toOption.map (fun p => p.1.map Prod.fst)

/-- The per-metric inner dictionary stored under one top-level key of the
attached record. -/
def innerRecord (e : Except String (List (String × List (RKey × ℚ)) × Frame))
    (name : String) : Option (List (RKey × ℚ)) :=
  e.toOption.bind (fun p => alookup p.1 name)

/-- Segments of the end-to-end scenario of the spec:
`[(0,2,"A"),(2,3,"B"),(3,3.4,"A"),(4,6,"B")]` with `duration = end - start`. -/
def exScenario : List Row :=
  [⟨0, 2, "A", 2⟩, ⟨2, 3, "B", 1⟩, ⟨3, 3.4, "A", 0.4⟩, ⟨4, 6, "B", 2⟩]

/-- Four-speaker segments (distinct total durations). -/
def exFourSpeakers : List Row :=
  [⟨0, 4, "A", 4⟩, ⟨4, 7, "B", 3⟩, ⟨7, 9, "C", 2⟩, ⟨9, 10, "D", 1⟩]

/-- A two-speaker segments list stored out of chronological order. -/
def exUnsorted : List Row :=
  [⟨5, 6, "A", 1⟩, ⟨0, 1, "B", 1⟩, ⟨2, 3, "A", 1⟩]

/-- A sorted two-speaker timeline with one inter-speaker gap. -/
def exGap : List Row := [⟨0, 1, "A", 1⟩, ⟨2, 3, "B", 1⟩]

/-- Two fully overlapping speakers covering the whole conversation. -/
def exOverlap : List Row := [⟨0, 6, "A", 6⟩, ⟨0, 6, "B", 6⟩]

/-- A single short segment, nested in no other segment. -/
def exLoneShort : List Row := [⟨0, 0.5, "A", 0.5⟩]

theorem alookup_eq_none_of_not_mem_keys {α β : Type} [DecidableEq α]
    (d : List (α × β)) (k : α) (h : k ∉ d.map Prod.fst) : alookup d k = none := by
  induction d with
  | nil => rfl
  | cons p rest ih =>
    simp only [List.map_cons, List.mem_cons, not_or] at h
    have h1 : p.1 ≠ k := fun hk => h.1 hk.symm
    simp only [alookup, if_neg h1]
    exact ih h.2

theorem alookup_append_left {α β : Type} [DecidableEq α]
    (d e : List (α × β)) (k : α) (v : β) (h : alookup d k = some v) :
    alookup (d ++ e) k = some v := by
  induction d with
  | nil => simp [alookup] at h
  | cons p rest ih =>
    simp only [alookup, List.cons_append] at h ⊢
    by_cases hk : p.1 = k
    · simpa [hk] using h
    · simp only [if_neg hk] at h ⊢
      exact ih h

theorem alookup_append_right {α β : Type} [DecidableEq α]
    (d e : List (α × β)) (k : α) (h : alookup d k = none) :
    alookup (d ++ e) k = alookup e k := by
  induction d with
  | nil => rfl
  | cons p rest ih =>
    simp only [alookup, List.cons_append] at h ⊢
    by_cases hk : p.1 = k
    · simp [hk] at h
    · simp only [if_neg hk] at h ⊢
      exact ih h

theorem keys_any_iff {α β : Type} [DecidableEq α] (d : List (α × β)) (k : α) :
    d.any (fun p => p.1 = k) = true ↔ k ∈ d.map Prod.fst := by
  induction d with
  | nil => simp
  | cons p rest ih =>
    simp only [List.any_cons, List.map_cons, List.mem_cons, Bool.or_eq_true,
      decide_eq_true_eq, ih]
    constructor
    · rintro (h | h)
      · exact Or.inl h.symm
      · exact Or.inr h
    · rintro (h | h)
      · exact Or.inl h.symm
      · exact Or.inr h

theorem alookup_map_update_self {α β : Type} [DecidableEq α]
    (d : List (α × β)) (k : α) (v : β) (h : k ∈ d.map Prod.fst) :
    alookup (d.map (fun p => if p.1 = k then (k, v) else p)) k = some v := by
  induction d with
  | nil => simp at h
  | cons p rest ih =>
    by_cases hk : p.1 = k
    · simp [alookup, if_pos hk]
    · simp only [List.map_cons, List.mem_cons] at h
      rcases h with h | h
      · exact absurd h.symm hk
      · simp only [List.map_cons, if_neg hk, alookup, if_neg hk]
        exact ih h

theorem alookup_map_update_ne {α β : Type} [DecidableEq α]
    (d : List (α × β)) (k k2 : α) (v : β) (h : k2 ≠ k) :
    alookup (d.map (fun p => if p.1 = k then (k, v) else p)) k2 = alookup d k2 := by
  induction d with
  | nil => rfl
  | cons p rest ih =>
    by_cases hk : p.1 = k
    · have h1 : k ≠ k2 := fun hh => h hh.symm
      have h2 : p.1 ≠ k2 := by rw [hk]; exact h1
      simp only [List.map_cons, if_pos hk, alookup, if_neg h1, if_neg h2]
      exact ih
    · simp only [List.map_cons, if_neg hk, alookup]
      by_cases hp : p.1 = k2
      · simp [hp]
      · simp only [if_neg hp]
        exact ih

theorem alookup_aupdate_self {α β : Type} [DecidableEq α]
    (d : List (α × β)) (k : α) (v : β) : alookup (aupdate d k v) k = some v := by
  unfold aupdate
  by_cases h : d.any (fun p => p.1 = k) = true
  · rw [if_pos h]
    exact alookup_map_update_self d k v ((keys_any_iff d k).mp h)
  · rw [if_neg h]
    have hnone : alookup d k = none := by
      apply alookup_eq_none_of_not_mem_keys
      rw [← keys_any_iff]
      simpa using h
    rw [alookup_append_right d _ k hnone]
    simp [alookup]

theorem alookup_aupdate_ne {α β : Type} [DecidableEq α]
    (d : List (α × β)) (k k2 : α) (v : β) (h : k2 ≠ k) :
    alookup (aupdate d k v) k2 = alookup d k2 := by
  unfold aupdate
  by_cases hany : d.any (fun p => p.1 = k) = true
  · rw [if_pos hany]
    exact alookup_map_update_ne d k k2 v h
  · rw [if_neg hany]
    by_cases h2 : alookup d k2 = none
    · rw [alookup_append_right d _ k2 h2, h2]
      simp only [alookup]
      rw [if_neg (fun hh : k = k2 => h hh.symm)]
    · rcases Option.ne_none_iff_exists'.mp h2 with ⟨v2, hv2⟩
      rw [alookup_append_left d _ k2 v2 hv2, hv2]

theorem keys_aupdate_of_not_mem {α β : Type} [DecidableEq α]
    (d : List (α × β)) (k : α) (v : β) (h : k ∉ d.map Prod.fst) :
    (aupdate d k v).map Prod.fst = d.map Prod.fst ++ [k] := by
  unfold aupdate
  rw [if_neg (by rw [keys_any_iff]; exact h)]
  simp

theorem keys_aupdate_sub {α β : Type} [DecidableEq α]
    (d : List (α × β)) (k k2 : α) (v : β)
    (h : k2 ∈ (aupdate d k v).map Prod.fst) :
    k2 ∈ d.map Prod.fst ∨ k2 = k := by
  unfold aupdate at h
  by_cases hany : d.any (fun p => p.1 = k) = true
  · rw [if_pos hany] at h
    clear hany
    induction d with
    | nil => simp at h
    | cons p rest ih =>
      simp only [List.map_cons, List.mem_cons] at h ⊢
      by_cases hk : p.1 = k
      · simp only [if_pos hk] at h
        rcases h with h | h
        · right; exact h
        · rcases ih h with hh | hh
          · left; right; exact hh
          · right; exact hh
      · simp only [if_neg hk] at h
        rcases h with h | h
        · left; left; exact h
        · rcases ih h with hh | hh
          · left; right; exact hh
          · right; exact hh
  · rw [if_neg hany] at h
    simp only [List.map_append, List.mem_append, List.map_cons, List.map_nil,
      List.mem_singleton] at h
    exact h

theorem mem_dedupFirst (a : String) (l : List String) :
    a ∈ dedupFirst l ↔ a ∈ l := by
  induction l with
  | nil => simp [dedupFirst]
  | cons b rest ih =>
    simp only [dedupFirst, List.mem_cons, List.mem_filter, decide_eq_true_eq]
    constructor
    · rintro (h | ⟨h, _⟩)
      · exact Or.inl h
      · exact Or.inr (ih.mp h)
    · rintro (h | h)
      · exact Or.inl h
      · by_cases hab : a = b
        · exact Or.inl hab
        · exact Or.inr ⟨ih.mpr h, hab⟩

theorem nodup_dedupFirst (l : List String) : (dedupFirst l).Nodup := by
  induction l with
  | nil => simp [dedupFirst]
  | cons b rest ih =>
    simp only [dedupFirst, List.nodup_cons]
    constructor
    · intro hmem
      simp only [List.mem_filter, decide_eq_true_eq] at hmem
      exact hmem.2 rfl
    · exact ih.filter _

theorem dedupFirst_filter (p : String → Bool) (l : List String) :
    dedupFirst (l.filter p) = (dedupFirst l).filter p := by
  induction l with
  | nil => rfl
  | cons b rest ih =>
    by_cases hb : p b = true
    · simp only [List.filter_cons, hb, if_true, dedupFirst, ih]
      rw [List.filter_filter, List.filter_filter]
      exact congrArg (b :: ·) (List.filter_congr (fun x _ => Bool.and_comm _ _))
    · simp only [List.filter_cons, if_neg hb, dedupFirst, ih]
      rw [List.filter_filter]
      refine List.filter_congr ?_
      intro x _
      by_cases hx : x = b
      · subst hx
        simp [Bool.eq_false_iff.mpr hb]
      · simp [hx]

theorem mem_insertSorted (a s : String) (l : List String) :
    a ∈ insertSorted s l ↔ a = s ∨ a ∈ l := by
  induction l with
  | nil => simp [insertSorted]
  | cons t rest ih =>
    simp only [insertSorted]
    by_cases h : strLeB s t = true
    · simp [h]
    · rw [if_neg h]
      simp only [List.mem_cons, ih]
      tauto

theorem mem_sortStrings (a : String) (l : List String) :
    a ∈ sortStrings l ↔ a ∈ l := by
  induction l with
  | nil => simp [sortStrings]
  | cons s rest ih =>
    simp only [sortStrings, mem_insertSorted, List.mem_cons, ih]

theorem nodup_insertSorted (s : String) (l : List String)
    (hs : s ∉ l) (h : l.Nodup) : (insertSorted s l).Nodup := by
  induction l with
  | nil => simp [insertSorted]
  | cons t rest ih =>
    simp only [List.mem_cons, not_or] at hs
    simp only [List.nodup_cons] at h
    simp only [insertSorted]
    by_cases hle : strLeB s t = true
    · rw [if_pos hle]
      simp only [List.nodup_cons, List.mem_cons, not_or]
      exact ⟨⟨hs.1, hs.2⟩, h.1, h.2⟩
    · rw [if_neg hle]
      simp only [List.nodup_cons, mem_insertSorted, not_or]
      exact ⟨⟨fun hh => hs.1 hh.symm, h.1⟩, ih hs.2 h.2⟩

theorem nodup_sortStrings (l : List String) (h : l.Nodup) :
    (sortStrings l).Nodup := by
  induction l with
  | nil => simp [sortStrings]
  | cons s rest ih =>
    simp only [List.nodup_cons] at h
    simp only [sortStrings]
    exact nodup_insertSorted s _ (fun hm => h.1 ((mem_sortStrings s rest).mp hm)) (ih h.2)

theorem argminQ_mem (g : String → ℚ) (l : List String) (s : String)
    (h : argminQ g l = some s) : s ∈ l := by
  induction l generalizing s with
  | nil => simp [argminQ] at h
  | cons t rest ih =>
    cases hrec : argminQ g rest with
    | none =>
      simp only [argminQ, hrec, Option.some.injEq] at h
      simp [← h]
    | some u =>
      simp only [argminQ, hrec, decide_eq_true_eq] at h
      by_cases hle : g t ≤ g u
      · rw [if_pos hle] at h
        obtain rfl : t = s := by simpa using h
        exact List.mem_cons_self _ _
      · rw [if_neg hle] at h
        obtain rfl : u = s := by simpa using h
        exact List.mem_cons_of_mem _ (ih _ hrec)

theorem alookup_foldl_aupdate_ne {α β κ : Type} [DecidableEq κ]
    (L : List (α × β)) (rk : α → κ) (acc : List (κ × β)) (k : κ)
    (h : ∀ p ∈ L, rk p.1 ≠ k) :
    alookup (L.foldl (fun r p => aupdate r (rk p.1) p.2) acc) k = alookup acc k := by
  induction L generalizing acc with
  | nil => rfl
  | cons p rest ih =>
    simp only [List.foldl_cons]
    rw [ih _ (fun q hq => h q (List.mem_cons_of_mem p hq))]
    exact alookup_aupdate_ne acc (rk p.1) k p.2 (Ne.symm (h p (List.mem_cons_self p rest)))

theorem alookup_foldl_aupdate_mem {α β κ : Type} [DecidableEq α] [DecidableEq β] [DecidableEq κ]
    (L : List (α × β)) (rk : α → κ) (acc : List (κ × β)) (k : κ) (s : α) (v : β)
    (hmem : (s, v) ∈ L) (hk : rk s = k)
    (huniq : ∀ p ∈ L, rk p.1 = k → p = (s, v)) :
    alookup (L.foldl (fun r p => aupdate r (rk p.1) p.2) acc) k = some v := by
  induction L generalizing acc with
  | nil => simp at hmem
  | cons p rest ih =>
    simp only [List.foldl_cons]
    by_cases hpk : rk p.1 = k
    · have hp : p = (s, v) := huniq p (List.mem_cons_self p rest) hpk
      subst hp
      by_cases hrest : (s, v) ∈ rest
      · exact ih _ hrest (fun q hq => huniq q (List.mem_cons_of_mem _ hq))
      · have hne : ∀ q ∈ rest, rk q.1 ≠ k := by
          intro q hq hqk
          exact hrest (huniq q (List.mem_cons_of_mem _ hq) hqk ▸ hq)
        rw [alookup_foldl_aupdate_ne rest rk _ k hne]
        simp only at hpk
        rw [hpk]
        exact alookup_aupdate_self acc k v
    · have hrest : (s, v) ∈ rest := by
        rcases List.mem_cons.mp hmem with hh | hh
        · exact absurd (hh ▸ hk) hpk
        · exact hh
      exact ih _ hrest (fun q hq => huniq q (List.mem_cons_of_mem _ hq))

theorem mem_keys_foldl_aupdate {α β κ : Type} [DecidableEq κ]
    (L : List (α × β)) (rk : α → κ) (acc : List (κ × β)) (k : κ)
    (h : k ∈ (L.foldl (fun r p => aupdate r (rk p.1) p.2) acc).map Prod.fst) :
    k ∈ acc.map Prod.fst ∨ ∃ p, p ∈ L ∧ k = rk p.1 := by
  induction L generalizing acc with
  | nil => exact Or.inl h
  | cons p rest ih =>
    simp only [List.foldl_cons] at h
    rcases ih _ h with hh | ⟨q, hq, hqk⟩
    · rcases keys_aupdate_sub acc (rk p.1) k p.2 hh with hh2 | hh2
      · exact Or.inl hh2
      · exact Or.inr ⟨p, List.mem_cons_self p rest, hh2⟩
    · exact Or.inr ⟨q, List.mem_cons_of_mem _ hq, hqk⟩

theorem alookup_filterMap_of_not_mem (L : List String) (g : String → Option ℚ)
    (s : String) (hs : s ∉ L) :
    alookup (L.filterMap (fun t => (g t).map (fun v => (t, v)))) s = none := by
  induction L with
  | nil => rfl
  | cons t rest ih =>
    simp only [List.mem_cons, not_or] at hs
    simp only [List.filterMap_cons]
    cases g t with
    | none => exact ih hs.2
    | some v =>
      simp only [Option.map, alookup]
      rw [if_neg (fun hh => hs.1 hh.symm)]
      exact ih hs.2

theorem alookup_filterMap_of_nodup (L : List String) (g : String → Option ℚ)
    (s : String) (hnd : L.Nodup) (hs : s ∈ L) :
    alookup (L.filterMap (fun t => (g t).map (fun v => (t, v)))) s = g s := by
  induction L with
  | nil => simp at hs
  | cons t rest ih =>
    simp only [List.nodup_cons] at hnd
    simp only [List.filterMap_cons]
    by_cases hts : t = s
    · subst hts
      cases hgt : g t with
      | none => exact alookup_filterMap_of_not_mem rest g t hnd.1
      | some v => simp [alookup]
    · have hsrest : s ∈ rest := by
        rcases List.mem_cons.mp hs with hh | hh
        · exact absurd hh.symm hts
        · exact hh
      cases hgt : g t with
      | none => exact ih hnd.2 hsrest
      | some v =>
        simp only [Option.map, alookup]
        rw [if_neg hts]
        exact ih hnd.2 hsrest

theorem mem_groupbyApply (rows : List Row) (g : String → Option ℚ)
    (p : String × ℚ) (h : p ∈ groupbyApply rows g) :
    p.1 ∈ uniqueSpeakers rows ∧ g p.1 = some p.2 := by
  unfold groupbyApply at h
  rcases List.mem_filterMap.mp h with ⟨t, ht, hgt⟩
  cases hg : g t with
  | none => rw [hg] at hgt; simp at hgt
  | some v =>
    rw [hg] at hgt
    simp only [Option.map, Option.some.injEq] at hgt
    have h1 : p.1 = t := by rw [← hgt]
    have h2 : p.2 = v := by rw [← hgt]
    subst h1
    rw [h2, ← hg]
    exact ⟨(mem_sortStrings _ _).mp ht, rfl⟩

theorem strKey_cancel (a b c : String) (h : a ++ c = b ++ c) : a = b := by
  have hd : a.data ++ c.data = b.data ++ c.data := by
    rw [← String.data_append, ← String.data_append, h]
  exact String.ext (List.append_cancel_right hd)

/-- Looking up one speaker's renamed key in the formatted output of a metric
publishing a single speaker-scoped Series (built from a groupby aggregation)
returns that speaker's aggregate, provided no other speaker normalizes to the
same key. -/
theorem alookup_format_single (rows : List Row) (g : String → Option ℚ)
    (mk : String) (s : String)
    (hs : s ∈ uniqueSpeakers rows)
    (hinj : ∀ t ∈ uniqueSpeakers rows, normKey t = normKey s → t = s) :
    alookup (format_results [(mk, groupbyApply rows g)] [] (uniqueSpeakers rows))
      (RKey.str (normKey s ++ "_" ++ mk)) = g s := by
  have hrk : renameKey (uniqueSpeakers rows) mk s
      = RKey.str (normKey s ++ "_" ++ mk) := by
    unfold renameKey
    rw [if_pos hs]
  have hkey : ∀ p ∈ groupbyApply rows g,
      renameKey (uniqueSpeakers rows) mk p.1 = RKey.str (normKey s ++ "_" ++ mk) →
      p.1 = s := by
    intro p hp hpk
    have hmem := (mem_groupbyApply rows g p hp).1
    unfold renameKey at hpk
    rw [if_pos hmem] at hpk
    simp only [RKey.str.injEq] at hpk
    exact hinj p.1 hmem (strKey_cancel _ _ _ (strKey_cancel _ _ _ hpk))
  simp only [format_results, List.foldl_cons, List.foldl_nil]
  cases hgs : g s with
  | none =>
    apply alookup_foldl_aupdate_ne
    intro p hp hpk
    have h1 := hkey p hp hpk
    have h2 := (mem_groupbyApply rows g p hp).2
    rw [h1, hgs] at h2
    exact Option.noConfusion h2
  | some v =>
    apply alookup_foldl_aupdate_mem _ _ _ _ s v
    · unfold groupbyApply
      apply List.mem_filterMap.mpr
      exact ⟨s, (mem_sortStrings _ _).mpr hs, by rw [hgs]; rfl⟩
    · exact hrk
    · intro p hp hpk
      have h1 := hkey p hp hpk
      have h2 := (mem_groupbyApply rows g p hp).2
      rw [h1, hgs] at h2
      have h3 : p.2 = v := by
        injection h2 with hh
        exact hh.symm
      rw [Prod.ext_iff]
      exact ⟨h1, h3⟩

theorem sortRows_of_sorted (rows : List Row) (h : sortedByStartB rows = true) :
    sortRows rows = rows := by
  induction rows with
  | nil => rfl
  | cons r rest ih =>
    cases rest with
    | nil => rfl
    | cons r2 rest2 =>
      simp only [sortedByStartB, Bool.and_eq_true, decide_eq_true_eq] at h
      have hrec : sortRows (r2 :: rest2) = r2 :: rest2 := ih h.2
      show insertRow r (sortRows (r2 :: rest2)) = r :: r2 :: rest2
      rw [hrec]
      simp only [insertRow]
      rw [if_pos (by simpa using h.1)]

theorem groupVals_shiftGaps (rows : List Row) (s : String) :
    groupVals rows (shiftGaps rows) s = gapsOf rows s := by
  induction rows with
  | nil => rfl
  | cons r rest ih =>
    cases rest with
    | nil =>
      simp only [shiftGaps, groupVals, List.zip_cons_cons, List.zip_nil_right,
        List.filterMap_cons, List.filterMap_nil, gapsOf]
      by_cases hs : r.speaker = s
      · simp [hs]
      · simp [hs]
    | cons r2 rest2 =>
      simp only [shiftGaps, groupVals, List.zip_cons_cons, List.filterMap_cons, gapsOf]
      by_cases hs : r.speaker = s
      · simp only [if_pos hs]
        rw [← ih]
        rfl
      · simp only [if_neg hs]
        rw [← ih]
        rfl

theorem speaker_mem_uniqueSpeakers (rows : List Row) (r : Row) (h : r ∈ rows) :
    r.speaker ∈ uniqueSpeakers rows :=
  (mem_dedupFirst _ _).mpr (List.mem_map_of_mem _ h)

theorem map_speaker_filter (rows : List Row) (q : String → Bool) :
    (rows.filter (fun r => q r.speaker)).map (fun r => r.speaker)
      = (rows.map (fun r => r.speaker)).filter q := by
  induction rows with
  | nil => rfl
  | cons r rest ih =>
    simp only [List.filter_cons, List.map_cons]
    by_cases hq : q r.speaker = true
    · rw [if_pos hq, if_pos hq, List.map_cons, ih]
    · rw [if_neg hq, if_neg hq, ih]

theorem uniqueSpeakers_filter_ne (rows : List Row) (sp : String) :
    uniqueSpeakers (rows.filter (fun r => decide (r.speaker ≠ sp)))
      = (uniqueSpeakers rows).filter (fun x => decide (x ≠ sp)) := by
  unfold uniqueSpeakers
  rw [map_speaker_filter rows (fun x => decide (x ≠ sp))]
  exact dedupFirst_filter _ _

theorem length_filter_ne_of_nodup (l : List String) (a : String)
    (hnd : l.Nodup) (ha : a ∈ l) :
    (l.filter (fun x => decide (x ≠ a))).length + 1 = l.length := by
  induction l with
  | nil => simp at ha
  | cons b rest ih =>
    simp only [List.nodup_cons] at hnd
    by_cases hba : b = a
    · subst hba
      rw [List.filter_cons, if_neg (by simp)]
      have hself2 : rest.filter (fun x => decide (x ≠ b)) = rest := by
        apply List.filter_eq_self.mpr
        intro x hx
        simp only [decide_eq_true_eq]
        intro hxb
        exact hnd.1 (hxb ▸ hx)
      rw [hself2]
      simp
    · have harest : a ∈ rest := by
        rcases List.mem_cons.mp ha with hh | hh
        · exact absurd hh.symm hba
        · exact hh
      simp only [List.filter_cons]
      rw [if_pos (by simpa using hba)]
      simp only [List.length_cons]
      rw [← ih hnd.2 harest]

theorem sum_endstart_le (rows : List Row) (lo hi : ℚ)
    (h : chainOKB lo rows hi = true) :
    (rows.map (fun r => r.end_ - r.start)).sum ≤ hi - lo := by
  induction rows generalizing lo with
  | nil =>
    simp only [chainOKB, decide_eq_true_eq] at h
    simp only [List.map_nil, List.sum_nil]
    linarith
  | cons r rest ih =>
    simp only [chainOKB, Bool.and_eq_true, decide_eq_true_eq] at h
    have hrest := ih r.end_ h.2
    simp only [List.map_cons, List.sum_cons]
    have h1 := h.1.1
    have h2 := h.1.2
    linarith

theorem sum_endstart_eq_covers (rows : List Row) (lo hi : ℚ)
    (h : chainOKB lo rows hi = true)
    (heq : (rows.map (fun r => r.end_ - r.start)).sum = hi - lo) :
    coversB lo rows hi = true := by
  induction rows generalizing lo with
  | nil =>
    simp only [List.map_nil, List.sum_nil] at heq
    simp only [coversB, decide_eq_true_eq]
    linarith
  | cons r rest ih =>
    simp only [chainOKB, Bool.and_eq_true, decide_eq_true_eq] at h
    have hle := sum_endstart_le rest r.end_ hi h.2
    simp only [List.map_cons, List.sum_cons] at heq
    have h1 := h.1.1
    have h2 := h.1.2
    have hstart : r.start = lo := by linarith
    simp only [coversB, Bool.and_eq_true, decide_eq_true_eq]
    refine ⟨hstart, ih r.end_ h.2 ?_⟩
    linarith

theorem sumDurOf_partition (rows : List Row) (A B : String) (hAB : A ≠ B)
    (hall : ∀ r ∈ rows, r.speaker = A ∨ r.speaker = B) :
    sumDurOf rows A + sumDurOf rows B = (rows.map (fun r => r.duration)).sum := by
  induction rows with
  | nil => simp [sumDurOf]
  | cons r rest ih =>
    have ihr := ih (fun q hq => hall q (List.mem_cons_of_mem _ hq))
    rcases hall r (List.mem_cons_self _ _) with hr | hr
    · have hnB : ¬ (decide (r.speaker = B) = true) := by
        simp only [decide_eq_true_eq]
        rw [hr]
        exact hAB
      simp only [sumDurOf, List.filter_cons] at ihr ⊢
      rw [if_pos (by simpa using hr), if_neg hnB]
      simp only [List.map_cons, List.sum_cons]
      linarith
    · have hnA : ¬ (decide (r.speaker = A) = true) := by
        simp only [decide_eq_true_eq]
        rw [hr]
        exact fun hh => hAB hh.symm
      simp only [sumDurOf, List.filter_cons] at ihr ⊢
      rw [if_neg hnA, if_pos (by simpa using hr)]
      simp only [List.map_cons, List.sum_cons]
      linarith

theorem sum_dur_eq_sum_endstart (rows : List Row)
    (hd : ∀ r ∈ rows, r.duration = r.end_ - r.start) :
    (rows.map (fun r => r.duration)).sum = (rows.map (fun r => r.end_ - r.start)).sum := by
  induction rows with
  | nil => rfl
  | cons r rest ih =>
    simp only [List.map_cons, List.sum_cons]
    rw [hd r (List.mem_cons_self _ _), ih (fun q hq => hd q (List.mem_cons_of_mem _ hq))]

theorem argminQ_cons_ne_none (g : String → ℚ) (t : String) (rest : List String) :
    argminQ g (t :: rest) ≠ none := by
  simp only [argminQ]
  cases argminQ g rest with
  | none => simp
  | some u =>
    dsimp only
    by_cases hle : g t ≤ g u
    · rw [if_pos (by simp only [decide_eq_true_eq]; exact hle)]
      simp
    · rw [if_neg (by simp only [decide_eq_true_eq]; exact hle)]
      simp

/-- Claim C1 as stated is false on the code: `transform` never raises any
error, and with four distinct speakers the single `remove_shortest_speaker`
pass leaves three speakers, not two. On `exFourSpeakers` (speakers A, B, C, D)
normalization succeeds with a 3-speaker timeline. -/
theorem claim1_counterexample :
    (uniqueSpeakers (normalizeSegments exFourSpeakers)).length = 3 ∧
    (uniqueSpeakers (normalizeSegments exFourSpeakers)).length ≠ 2 := by
  have h : (uniqueSpeakers (normalizeSegments exFourSpeakers)).length = 3 := by
    simp [normalizeSegments, exFourSpeakers, uniqueSpeakers, dedupFirst,
      remove_shortest_speaker, idxminTotalDuration, argminQ, sortStrings, insertSorted,
      strLeB, charListLe, sumDurOf, List.filter_cons, List.filter_nil]
  exact ⟨h, by rw [h]; decide⟩

/-- Claim C1, amended: segment normalization is total (it never raises; no
`InsufficientSpeakersError` exists in the code). When at most 2 distinct
speakers are present the segments pass through unchanged — even a 1-speaker
or empty timeline proceeds to the metrics. When more than 2 are present,
exactly one speaker (the one with the least summed duration) is removed, so
the speaker count drops by exactly one (leaving more than 2 whenever 4 or
more were present). -/
theorem claim1_amended (segments : List Row) :
    ((uniqueSpeakers segments).length ≤ 2 → normalizeSegments segments = segments) ∧
    (2 < (uniqueSpeakers segments).length →
      (uniqueSpeakers (normalizeSegments segments)).length + 1
        = (uniqueSpeakers segments).length) := by
  constructor
  · intro h
    unfold normalizeSegments
    rw [if_neg (by omega)]
  · intro h
    unfold normalizeSegments
    rw [if_pos h]
    have hpos : 0 < (uniqueSpeakers segments).length := by omega
    obtain ⟨u, hu⟩ := List.exists_mem_of_length_pos hpos
    obtain ⟨sp, hsp⟩ : ∃ sp, idxminTotalDuration segments = some sp := by
      unfold idxminTotalDuration
      cases hss : sortStrings (uniqueSpeakers segments) with
      | nil =>
        exfalso
        have := (mem_sortStrings u (uniqueSpeakers segments)).mpr hu
        rw [hss] at this
        simp at this
      | cons t rest =>
        cases harg : argminQ (fun s => sumDurOf segments s) (t :: rest) with
        | none => exact absurd harg (argminQ_cons_ne_none _ t rest)
        | some sp => exact ⟨sp, rfl⟩
    have hspmem : sp ∈ uniqueSpeakers segments :=
      (mem_sortStrings sp _).mp (argminQ_mem _ _ sp (by rw [← hsp]; rfl))
    unfold remove_shortest_speaker
    rw [hsp]
    rw [uniqueSpeakers_filter_ne segments sp]
    exact length_filter_ne_of_nodup _ sp (nodup_dedupFirst _) hspmem

/-- Claim C1 witness: on the four-speaker input the amended statement
concretely yields a three-speaker timeline (4 − 1). -/
theorem claim1_witness :
    (uniqueSpeakers (normalizeSegments exFourSpeakers)).length + 1
      = (uniqueSpeakers exFourSpeakers).length :=
  (claim1_amended exFourSpeakers).2 (by decide)

/-- Claim C8 as stated is false: `transform` performs no sorting before
running the metrics — the filtered segments keep their stored order. On the
out-of-order `exUnsorted` input, normalization returns the input unchanged
and the timeline handed to the metrics is not sorted by start. -/
theorem claim8_counterexample :
    normalizeSegments exUnsorted = exUnsorted ∧
    sortedByStartB (normalizeSegments exUnsorted) = false := by
  have h : normalizeSegments exUnsorted = exUnsorted := by decide
  refine ⟨h, ?_⟩
  rw [h]
  decide

/-- Claim C8, amended: the normalization step of `transform` (noise-speaker
filtering) only ever removes rows; it never reorders, so the timeline reaches
the metrics as a subsequence of the stored segments in stored order. Only
`ResponseTime` sorts, internally, on its own copy. -/
theorem claim8_amended (segments : List Row) :
    (normalizeSegments segments).Sublist segments := by
  unfold normalizeSegments
  split
  · unfold remove_shortest_speaker
    split
    · exact List.filter_sublist _
    · exact List.Sublist.refl _
  · exact List.Sublist.refl _

/-- Claim C2 as stated is false: `ResponseTime` groups the gap
`next.start - current.end` by the speaker of the CURRENT row (the same
`shift(-1)` arithmetic and the same attribution as `Pauses`), not the next
row. On the sorted timeline `[(0,1,"A"),(2,3,"B")]` the 1-second gap is
reported for speaker A; speaker B receives no entry, while the claim demands
the opposite attribution. -/
theorem claim2_counterexample :
    alookup (ResponseTime.extract ⟨exGap, []⟩).1 (RKey.str "a_avg_response_time")
      = some 1 ∧
    alookup (ResponseTime.extract ⟨exGap, []⟩).1 (RKey.str "b_avg_response_time")
      = none := by
  constructor
  · simp [ResponseTime.extract, format_results, groupbyApply, groupVals, meanOpt,
      shiftGaps, sortRows, insertRow, uniqueSpeakers, dedupFirst, sortStrings,
      insertSorted, strLeB, charListLe, aupdate, alookup, renameKey, normKey,
      pyLower, pyStrip, isSpaceChar, exGap, List.filter_cons, List.filter_nil,
      List.filterMap_cons, List.filterMap_nil, List.dropWhile_cons, List.dropWhile_nil]
    norm_num
  · simp [ResponseTime.extract, format_results, groupbyApply, groupVals, meanOpt,
      shiftGaps, sortRows, insertRow, uniqueSpeakers, dedupFirst, sortStrings,
      insertSorted, strLeB, charListLe, aupdate, alookup, renameKey, normKey,
      pyLower, pyStrip, isSpaceChar, exGap, List.filter_cons, List.filter_nil,
      List.filterMap_cons, List.filterMap_nil, List.dropWhile_cons, List.dropWhile_nil]

/-- Claim C2, amended: for every timeline sorted by start, both metrics
attribute the gap `next.start - current.end` of each adjacent pair to the
speaker of the CURRENT (first) interval; the per-speaker quantity underlying
both is the same mean of `gapsOf`, which `ResponseTime` reports raw and
`Pauses` reports as `mean * 100 / total_duration`. -/
theorem claim2_amended (rows : List Row) (extra extra2 : List (String × List CellV))
    (T : ℚ) (s : String)
    (hsort : sortedByStartB rows = true)
    (hs : s ∈ uniqueSpeakers rows)
    (hinj : ∀ t ∈ uniqueSpeakers rows, normKey t = normKey s → t = s)
    (hne : gapsOf rows s ≠ []) :
    alookup (ResponseTime.extract ⟨rows, extra⟩).1
        (RKey.str (normKey s ++ "_" ++ "avg_response_time"))
      = some ((gapsOf rows s).sum / ((gapsOf rows s).length : ℚ)) ∧
    alookup (Pauses.extract ⟨rows, extra2⟩ T).1
        (RKey.str (normKey s ++ "_" ++ "avg_pause_pct"))
      = some ((gapsOf rows s).sum / ((gapsOf rows s).length : ℚ) * 100 / T) := by
  have hmean : meanOpt (groupVals rows (shiftGaps rows) s)
      = some ((gapsOf rows s).sum / ((gapsOf rows s).length : ℚ)) := by
    rw [groupVals_shiftGaps]
    unfold meanOpt
    rw [if_neg (by simpa [List.isEmpty_iff] using hne)]
  constructor
  · unfold ResponseTime.extract
    rw [sortRows_of_sorted rows hsort]
    rw [alookup_format_single rows _ "avg_response_time" s hs hinj]
    exact hmean
  · unfold Pauses.extract
    rw [alookup_format_single rows _ "avg_pause_pct" s hs hinj]
    rw [hmean]
    rfl

/-- Claim C2 witness: the amended statement at the spec's end-to-end scenario
timeline for speaker A (mean gap 3/10; Pauses scales it by 100/6). -/
theorem claim2_witness :
    alookup (ResponseTime.extract ⟨exScenario, []⟩).1
        (RKey.str (normKey "A" ++ "_" ++ "avg_response_time"))
      = some ((gapsOf exScenario "A").sum / ((gapsOf exScenario "A").length : ℚ)) ∧
    alookup (Pauses.extract ⟨exScenario, []⟩ 6).1
        (RKey.str (normKey "A" ++ "_" ++ "avg_pause_pct"))
      = some ((gapsOf exScenario "A").sum / ((gapsOf exScenario "A").length : ℚ) * 100 / 6) :=
  claim2_amended exScenario [] [] 6 "A"
    (by norm_num [sortedByStartB, exScenario])
    (by decide)
    (by decide)
    (by simp [gapsOf, exScenario])

/-- Claim C7: Pauses computes the gap `next.start - current.end` for every
non-trailing row, groups the gaps by the current row's speaker, and reports
`100 * mean / total_duration` per speaker (the trailing row contributes
nothing); on the spec's end-to-end scenario with total_duration 6, speaker A
is reported 5.0. -/
theorem claim7_pauses :
    (∀ (rows : List Row) (extra : List (String × List CellV)) (T : ℚ) (s : String),
      sortedByStartB rows = true →
      s ∈ uniqueSpeakers rows →
      (∀ t ∈ uniqueSpeakers rows, normKey t = normKey s → t = s) →
      gapsOf rows s ≠ [] →
      alookup (Pauses.extract ⟨rows, extra⟩ T).1
          (RKey.str (normKey s ++ "_" ++ "avg_pause_pct"))
        = some (100 * ((gapsOf rows s).sum / ((gapsOf rows s).length : ℚ)) / T)) ∧
    alookup (Pauses.extract ⟨exScenario, []⟩ 6).1 (RKey.str "a_avg_pause_pct")
      = some 5 := by
  constructor
  · intro rows extra T s _hsort hs hinj hne
    unfold Pauses.extract
    rw [alookup_format_single rows _ "avg_pause_pct" s hs hinj]
    rw [groupVals_shiftGaps]
    unfold meanOpt
    rw [if_neg (by simpa [List.isEmpty_iff] using hne)]
    simp only [Option.map]
    rw [mul_comm]
  · simp [Pauses.extract, format_results, groupbyApply, groupVals, meanOpt, shiftGaps,
      uniqueSpeakers, dedupFirst, sortStrings, insertSorted, strLeB, charListLe,
      aupdate, alookup, renameKey, normKey, pyLower, pyStrip, isSpaceChar, exScenario,
      List.filter_cons, List.filter_nil, List.filterMap_cons, List.filterMap_nil,
      List.dropWhile_cons, List.dropWhile_nil]
    norm_num

/-- Claim C7 witness: the general part applied to the two-row timeline
`exGap` for speaker A with total_duration 2 (single gap of 1 second,
reported as 100 * 1 / 2). -/
theorem claim7_witness :
    alookup (Pauses.extract ⟨exGap, []⟩ 2).1
        (RKey.str (normKey "A" ++ "_" ++ "avg_pause_pct"))
      = some (100 * ((gapsOf exGap "A").sum / ((gapsOf exGap "A").length : ℚ)) / 2) :=
  claim7_pauses.1 exGap [] 2 "A"
    (by norm_num [sortedByStartB, exGap])
    (by decide)
    (by decide)
    (by simp [gapsOf, exGap])

/-- Claim C3: the source's `is_backchannel` omits the self-exclusion that its
own inline comment ("check if current segment is within another segment") and
the spec describe: the row under test is compared against every row of the
frame including itself, and self-containment always holds, so the containment
conjuncts are vacuous and any interval of duration at most 1.0s is classified
a backchannel. On a timeline holding a single 0.5s interval nested in no
other interval, the code classifies it a backchannel while the spec's
predicate (self-comparison excluded) does not. -/
theorem claim3_code_bug_eval :
    Backchannels.is_backchannel ⟨0, 0.5, "A", 0.5⟩ exLoneShort = true ∧
    isBackchannelSpec 0 exLoneShort = false := by
  constructor
  · norm_num [Backchannels.is_backchannel, exLoneShort]
  · norm_num [isBackchannelSpec, exLoneShort]

/-- Claim C6 as stated is false: `Pauses.extract` assigns the `pause` column
into the shared frame it was handed (`conversation['pause'] = ...`), so the
input timeline does not come back unchanged. -/
theorem claim6_counterexample :
    (Pauses.extract ⟨exGap, []⟩ 6).2 ≠ (⟨exGap, []⟩ : Frame) := by
  decide

/-- Claim C6, amended: `ResponseTime` leaves its input frame untouched (it
sorts into a fresh copy), but `Pauses` and `Backchannels` write their working
column (`pause`, `backchannel`) into the shared frame in place: whenever that
column is not already present, the frame after the call differs from the
frame passed in. -/
theorem claim6_amended (f : Frame) (T : ℚ) :
    (ResponseTime.extract f).2 = f ∧
    ("pause" ∉ f.extra.map Prod.fst → (Pauses.extract f T).2 ≠ f) ∧
    ("backchannel" ∉ f.extra.map Prod.fst → Backchannels.assign f ≠ f) := by
  refine ⟨rfl, ?_, ?_⟩
  · intro hnm heq
    have hex : (Pauses.extract f T).2.extra = f.extra := by rw [heq]
    have h1 : alookup (Pauses.extract f T).2.extra "pause"
        = some (((shiftGaps f.rows).map cellOfOpt)) := by
      show alookup (aupdate f.extra "pause" _) "pause" = _
      exact alookup_aupdate_self _ _ _
    rw [hex, alookup_eq_none_of_not_mem_keys f.extra "pause" hnm] at h1
    exact Option.noConfusion h1
  · intro hnm heq
    have hex : (Backchannels.assign f).extra = f.extra := by rw [heq]
    have h1 : alookup (Backchannels.assign f).extra "backchannel"
        = some (f.rows.map (fun r => CellV.bl (Backchannels.is_backchannel r f.rows))) := by
      show alookup (aupdate f.extra "backchannel" _) "backchannel" = _
      exact alookup_aupdate_self _ _ _
    rw [hex, alookup_eq_none_of_not_mem_keys f.extra "backchannel" hnm] at h1
    exact Option.noConfusion h1

/-- Claim C6 witness: the amended statement at a concrete frame with no
derived columns. -/
theorem claim6_witness :
    (ResponseTime.extract ⟨exUnsorted, []⟩).2 = (⟨exUnsorted, []⟩ : Frame) ∧
    (Pauses.extract ⟨exUnsorted, []⟩ 6).2 ≠ (⟨exUnsorted, []⟩ : Frame) ∧
    Backchannels.assign ⟨exUnsorted, []⟩ ≠ (⟨exUnsorted, []⟩ : Frame) := by
  have h := claim6_amended ⟨exUnsorted, []⟩ 6
  exact ⟨h.1, h.2.1 (by simp), h.2.2 (by simp)⟩

theorem runMetrics_names (ms : List MetricImpl) (f : Frame) (T : Option ℚ)
    (acc out : List (String × List (RKey × ℚ))) (f2 : Frame)
    (h : runMetrics ms f T acc = Except.ok (out, f2))
    (hdis : ∀ m ∈ ms, m.name ∉ acc.map Prod.fst)
    (hnd : (ms.map MetricImpl.name).Nodup) :
    out.map Prod.fst = acc.map Prod.fst ++ ms.map MetricImpl.name := by
  induction ms generalizing f acc with
  | nil =>
    simp only [runMetrics, Except.ok.injEq, Prod.mk.injEq] at h
    rw [← h.1]
    simp
  | cons m rest ih =>
    simp only [runMetrics] at h
    cases hrun : m.run f T with
    | error e => rw [hrun] at h; exact absurd h (by simp)
    | ok resf =>
      rw [hrun] at h
      simp only [List.map_cons, List.nodup_cons] at hnd
      have hmnotin : m.name ∉ acc.map Prod.fst :=
        hdis m (List.mem_cons_self _ _)
      have hkeys := keys_aupdate_of_not_mem acc m.name resf.1 hmnotin
      have hdis2 : ∀ m2 ∈ rest, m2.name ∉ (aupdate acc m.name resf.1).map Prod.fst := by
        intro m2 hm2
        rw [hkeys]
        simp only [List.mem_append, List.mem_singleton, not_or]
        refine ⟨hdis m2 (List.mem_cons_of_mem _ hm2), ?_⟩
        intro hh
        exact hnd.1 (hh ▸ List.mem_map_of_mem MetricImpl.name hm2)
      have := ih resf.2 (aupdate acc m.name resf.1) h hdis2 hnd.2
      rw [this, hkeys]
      simp

/-- Claim C4 as stated is false: the record `transform` attaches under
`conversation_dynamics_features` is not one flat merged mapping — it is a
nested dictionary keyed by metric name, with each metric's flat
convention-keyed mapping one level down. Concretely, with SpeakingTime and
Pauses registered, the attached record's top-level keys are the metric names,
and the speaker-scoped keys (`a_speaking_time`, ...) appear only inside the
per-metric inner record. -/
theorem claim4_counterexample :
    topKeys (transformSegments [speakingTimeImpl, pausesImpl] ⟨exScenario, []⟩ 6)
      = some ["speaking_time", "pauses"] ∧
    (innerRecord (transformSegments [speakingTimeImpl, pausesImpl] ⟨exScenario, []⟩ 6)
        "speaking_time").map (List.map Prod.fst)
      = some [RKey.str "a_speaking_time", RKey.str "b_speaking_time"] := by
  exact ⟨by decide, by decide⟩

/-- Claim C4, amended: each metric's own output is a flat mapping whose keys
follow the convention — `normKey(speaker) ++ "_" ++ metricKey` for
speaker-scoped values (for speakers present in the `speakers` argument) and
the bare key for conversation-scoped values — but the orchestrator does not
merge these: the attached record maps each registered metric's name (in
registration order, one entry per distinct name) to that metric's flat
output. -/
theorem claim4_amended :
    (∀ (ms : List MetricImpl) (f : Frame) (T : ℚ)
      (out : List (String × List (RKey × ℚ))) (f2 : Frame),
      transformSegments ms f T = Except.ok (out, f2) →
      (ms.map MetricImpl.name).Nodup →
      out.map Prod.fst = ms.map MetricImpl.name) ∧
    (∀ (mk2 : String) (scores cm : List (String × ℚ))
      (speakers : List String) (k : RKey),
      (∀ p ∈ scores, p.1 ∈ speakers) →
      k ∈ (format_results [(mk2, scores)] cm speakers).map Prod.fst →
      (∃ s ∈ speakers, k = RKey.str (normKey s ++ "_" ++ mk2)) ∨
      (∃ c ∈ cm, k = RKey.str c.1)) := by
  constructor
  · intro ms f T out f2 h hnd
    have := runMetrics_names ms f (some T) [] out f2 h (by simp) hnd
    simpa using this
  · intro mk2 scores cm speakers k hsub hk
    simp only [format_results, List.foldl_cons, List.foldl_nil] at hk
    rcases mem_keys_foldl_aupdate cm (fun x => RKey.str x) _ k hk with hh | ⟨c, hc, hck⟩
    · rcases mem_keys_foldl_aupdate scores (renameKey speakers mk2) [] k hh
        with hh2 | ⟨p, hp, hpk⟩
      · simp at hh2
      · left
        refine ⟨p.1, hsub p hp, ?_⟩
        rw [hpk]
        unfold renameKey
        rw [if_pos (hsub p hp)]
    · right
      exact ⟨c, hc, hck⟩

/-- Claim C4 witness: on a concrete two-metric run the top-level keys of the
attached record are exactly the metric names, and a convention key produced
by the formatter resolves to a speaker of the `speakers` list. -/
theorem claim4_witness :
    topKeys (transformSegments [speakingTimeImpl, pausesImpl] ⟨exGap, []⟩ 2)
      = some ["speaking_time", "pauses"] ∧
    ((∃ s ∈ ["A", "B"], RKey.str "a_speaking_time"
        = RKey.str (normKey s ++ "_" ++ "speaking_time")) ∨
     (∃ c ∈ ([] : List (String × ℚ)), RKey.str "a_speaking_time" = RKey.str c.1)) := by
  constructor
  · obtain ⟨p, hp⟩ : ∃ p, transformSegments [speakingTimeImpl, pausesImpl]
        ⟨exGap, []⟩ 2 = Except.ok p := ⟨_, rfl⟩
    have hnames := claim4_amended.1 [speakingTimeImpl, pausesImpl] ⟨exGap, []⟩ 2
      p.1 p.2 (by rw [hp]) (by decide)
    unfold topKeys
    rw [hp]
    simp only [Except.toOption, Option.map]
    rw [hnames]
    rfl
  · exact claim4_amended.2 "speaking_time" [("A", (100 : ℚ))] [] ["A", "B"]
      (RKey.str "a_speaking_time") (by decide)
      (by decide)

/-- Claim C5 as stated is false: the metric loop of `transform` has no
exception handling, so one failing metric aborts the whole conversation. With
SpeakingTime and SpeakerRate registered, the SpeakerRate call fails at
argument binding (transform passes `total_duration` but no `text_field`) and
the conversation receives no features at all — not even SpeakingTime's, which
had already been computed. -/
theorem claim5_counterexample :
    transformSegments [speakingTimeImpl, speakerRateImpl] ⟨exScenario, []⟩ 6
      = Except.error
          "TypeError: extract() got an unexpected keyword argument total_duration" := by
  rfl

/-- Claim C5, amended: a metric failure is fatal to the whole conversation,
not just the failing metric: whenever SpeakerRate is among the registered
metrics, the metric loop of `transform` raises (under this orchestrator
SpeakerRate's `extract` always fails at argument binding), so no record —
partial or otherwise — is produced for the conversation. -/
theorem claim5_amended (ms : List MetricImpl) (f : Frame) (T : Option ℚ)
    (acc : List (String × List (RKey × ℚ)))
    (hmem : speakerRateImpl ∈ ms) :
    ∃ e, runMetrics ms f T acc = Except.error e := by
  induction ms generalizing f acc with
  | nil => simp at hmem
  | cons m rest ih =>
    rcases List.mem_cons.mp hmem with hm | hm
    · subst hm
      cases T with
      | none => exact ⟨_, rfl⟩
      | some T0 => exact ⟨_, rfl⟩
    · cases hrun : m.run f T with
      | error e =>
        refine ⟨e, ?_⟩
        simp only [runMetrics, hrun]
      | ok resf =>
        obtain ⟨e, he⟩ := ih resf.2 (aupdate acc m.name resf.1) hm
        refine ⟨e, ?_⟩
        simp only [runMetrics, hrun]
        exact he

/-- Claim C5 witness: the amended statement at a concrete metric list and
frame. -/
theorem claim5_witness :
    ∃ e, runMetrics [speakingTimeImpl, speakerRateImpl] ⟨exScenario, []⟩ (some 6) []
      = Except.error e :=
  claim5_amended _ _ _ _ (List.mem_cons_of_mem _ (List.mem_cons_self _ _))

/-- Claim C9 as stated is false: nothing prevents the two speakers'
diarization intervals from overlapping, and SpeakingTime divides each
speaker's summed duration by `total_duration` independently. On two fully
overlapping speakers spanning the whole 6-second conversation, both
percentages are 100 and their sum is 200 > 100. -/
theorem claim9_counterexample :
    alookup (SpeakingTime.extract ⟨exOverlap, []⟩ 6).1 (RKey.str "a_speaking_time")
      = some 100 ∧
    alookup (SpeakingTime.extract ⟨exOverlap, []⟩ 6).1 (RKey.str "b_speaking_time")
      = some 100 ∧
    ¬ ((100 : ℚ) + 100 ≤ 100) := by
  refine ⟨?_, ?_, by norm_num⟩
  · simp [SpeakingTime.extract, format_results, groupbyApply, sumDurOf,
      uniqueSpeakers, dedupFirst, sortStrings, insertSorted, strLeB, charListLe,
      aupdate, alookup, renameKey, normKey, pyLower, pyStrip, isSpaceChar, exOverlap,
      List.filter_cons, List.filter_nil, List.filterMap_cons, List.filterMap_nil,
      List.dropWhile_cons, List.dropWhile_nil]
  · simp [SpeakingTime.extract, format_results, groupbyApply, sumDurOf,
      uniqueSpeakers, dedupFirst, sortStrings, insertSorted, strLeB, charListLe,
      aupdate, alookup, renameKey, normKey, pyLower, pyStrip, isSpaceChar, exOverlap,
      List.filter_cons, List.filter_nil, List.filterMap_cons, List.filterMap_nil,
      List.dropWhile_cons, List.dropWhile_nil]

/-- Claim C9, amended: with exactly two speakers, the reported values are
`sum(duration) * 100 / total_duration` per speaker, and their sum is bounded
by 100 under the additional hypotheses the claim leaves implicit — that the
intervals are pairwise non-overlapping, lie inside `[0, total_duration]`
(`chainOKB`), and carry `duration = end - start`; equality forces the
intervals to tile `[0, total_duration]` exactly with no gaps. Without the
non-overlap hypothesis the bound fails (see the counterexample). -/
theorem claim9_amended (rows : List Row) (extra : List (String × List CellV))
    (T : ℚ) (A B : String)
    (hu : uniqueSpeakers rows = [A, B])
    (hT : 0 < T)
    (hk : normKey A ≠ normKey B)
    (hchain : chainOKB 0 rows T = true)
    (hdur : ∀ r ∈ rows, r.duration = r.end_ - r.start) :
    alookup (SpeakingTime.extract ⟨rows, extra⟩ T).1
        (RKey.str (normKey A ++ "_" ++ "speaking_time"))
      = some (sumDurOf rows A * 100 / T) ∧
    alookup (SpeakingTime.extract ⟨rows, extra⟩ T).1
        (RKey.str (normKey B ++ "_" ++ "speaking_time"))
      = some (sumDurOf rows B * 100 / T) ∧
    sumDurOf rows A * 100 / T + sumDurOf rows B * 100 / T ≤ 100 ∧
    (sumDurOf rows A * 100 / T + sumDurOf rows B * 100 / T = 100 →
      coversB 0 rows T = true) := by
  have hAB : A ≠ B := by
    have hnd : (uniqueSpeakers rows).Nodup := nodup_dedupFirst _
    rw [hu] at hnd
    simp only [List.nodup_cons, List.mem_singleton] at hnd
    exact hnd.1
  have hall : ∀ r ∈ rows, r.speaker = A ∨ r.speaker = B := by
    intro r hr
    have := speaker_mem_uniqueSpeakers rows r hr
    rw [hu] at this
    simpa using this
  have hpart := sumDurOf_partition rows A B hAB hall
  have hsum : sumDurOf rows A + sumDurOf rows B ≤ T := by
    rw [hpart, sum_dur_eq_sum_endstart rows hdur]
    have := sum_endstart_le rows 0 T hchain
    linarith
  have hmemA : A ∈ uniqueSpeakers rows := by rw [hu]; simp
  have hmemB : B ∈ uniqueSpeakers rows := by rw [hu]; simp
  have hinjA : ∀ t ∈ uniqueSpeakers rows, normKey t = normKey A → t = A := by
    intro t ht hteq
    rw [hu] at ht
    rcases List.mem_cons.mp ht with rfl | ht2
    · rfl
    · rw [List.mem_singleton] at ht2
      subst ht2
      exact absurd hteq.symm hk
  have hinjB : ∀ t ∈ uniqueSpeakers rows, normKey t = normKey B → t = B := by
    intro t ht hteq
    rw [hu] at ht
    rcases List.mem_cons.mp ht with rfl | ht2
    · exact absurd hteq hk
    · rw [List.mem_singleton] at ht2
      exact ht2
  refine ⟨?_, ?_, ?_, ?_⟩
  · unfold SpeakingTime.extract
    rw [alookup_format_single rows _ "speaking_time" A hmemA hinjA]
  · unfold SpeakingTime.extract
    rw [alookup_format_single rows _ "speaking_time" B hmemB hinjB]
  · rw [div_add_div_same, ← add_mul]
    rw [div_le_iff₀ hT]
    nlinarith
  · intro heq
    rw [div_add_div_same, ← add_mul] at heq
    have hTne : T ≠ 0 := ne_of_gt hT
    have htot : sumDurOf rows A + sumDurOf rows B = T := by
      field_simp at heq
      linarith
    apply sum_endstart_eq_covers rows 0 T hchain
    rw [← sum_dur_eq_sum_endstart rows hdur, ← hpart]
    linarith

/-- Claim C9 witness: the amended statement on the non-overlapping chain
`exGap` inside `[0, 3]` (values 100/3 each; sum 200/3 ≤ 100). -/
theorem claim9_witness :
    alookup (SpeakingTime.extract ⟨exGap, []⟩ 3).1
        (RKey.str (normKey "A" ++ "_" ++ "speaking_time"))
      = some (sumDurOf exGap "A" * 100 / 3) ∧
    alookup (SpeakingTime.extract ⟨exGap, []⟩ 3).1
        (RKey.str (normKey "B" ++ "_" ++ "speaking_time"))
      = some (sumDurOf exGap "B" * 100 / 3) ∧
    sumDurOf exGap "A" * 100 / 3 + sumDurOf exGap "B" * 100 / 3 ≤ 100 ∧
    (sumDurOf exGap "A" * 100 / 3 + sumDurOf exGap "B" * 100 / 3 = 100 →
      coversB 0 exGap 3 = true) :=
  claim9_amended exGap [] 3 "A" "B"
    (by decide)
    (by norm_num)
    (by decide)
    (by norm_num [chainOKB, exGap])
    (by
      intro r hr
      fin_cases hr <;> norm_num [exGap])

theorem registerLoop_append (acc : List MetricId) (good : List String)
    (bad : String) (rest : List String)
    (hgood : ∀ n ∈ good, (alookup METRICS_REGISTRY (normalizeName n)).isSome = true)
    (hbad : alookup METRICS_REGISTRY (normalizeName bad) = none) :
    registerLoop acc (good ++ bad :: rest)
      = (acc ++ good.filterMap (fun n => alookup METRICS_REGISTRY (normalizeName n)),
         some (unknownMetricMsg (normalizeName bad))) := by
  induction good generalizing acc with
  | nil =>
    simp only [List.nil_append, registerLoop, hbad, List.filterMap_nil, List.append_nil]
  | cons n good2 ih =>
    have hn := hgood n (List.mem_cons_self _ _)
    obtain ⟨m, hm⟩ := Option.isSome_iff_exists.mp hn
    simp only [List.cons_append, registerLoop, hm, List.append_eq]
    rw [ih (acc ++ [m]) (fun n2 hn2 => hgood n2 (List.mem_cons_of_mem _ hn2))]
    simp only [List.filterMap_cons, hm, Prod.mk.injEq, and_true]
    simp

/-- Claim C10: `register_metrics` first discards the previously registered
metrics (`self.metrics = []`), so the outcome never depends on the prior
state; and when a supplied name fails the lowercase/strip lookup, a
`ValueError` naming the available metrics is raised with the metrics resolved
from the earlier names already appended — registration is replacing but not
atomic on error. -/
theorem claim10_registration :
    (∀ (prev prev2 : List MetricId) (names : List String),
      register_metrics prev names = register_metrics prev2 names) ∧
    (∀ (prev : List MetricId) (good : List String) (bad : String)
      (rest : List String),
      (∀ n ∈ good, (alookup METRICS_REGISTRY (normalizeName n)).isSome = true) →
      alookup METRICS_REGISTRY (normalizeName bad) = none →
      register_metrics prev (good ++ bad :: rest)
        = (good.filterMap (fun n => alookup METRICS_REGISTRY (normalizeName n)),
           some (unknownMetricMsg (normalizeName bad)))) := by
  constructor
  · intro prev prev2 names
    rfl
  · intro prev good bad rest hgood hbad
    unfold register_metrics
    rw [registerLoop_append [] good bad rest hgood hbad]
    simp

/-- Claim C10 witness: registering `["Pauses ", "SPEAKING_TIME",
"turn_lenght", "backchannels"]` over a non-empty previous registration keeps
the two metrics resolved before the misspelled name and raises the
`ValueError` listing the registry's names; the previous `turn_length`
registration is gone. -/
theorem claim10_witness :
    register_metrics [MetricId.turnLength]
        ["Pauses ", "SPEAKING_TIME", "turn_lenght", "backchannels"]
      = ([MetricId.pauses, MetricId.speakingTime],
         some (unknownMetricMsg "turn_lenght")) := by
  have happ : (["Pauses ", "SPEAKING_TIME", "turn_lenght", "backchannels"] : List String)
      = ["Pauses ", "SPEAKING_TIME"] ++ "turn_lenght" :: ["backchannels"] := rfl
  rw [happ]
  rw [claim10_registration.2 [MetricId.turnLength] ["Pauses ", "SPEAKING_TIME"]
    "turn_lenght" ["backchannels"] (by decide) (by decide)]
  decide
